import Mathlib

/-!
Shallow embedding of the `rust-grep` command-line search utility.

Strings are modelled as `List Char`. The embedding covers:
* `splitNl`, `stripCR`, `finishLines`, `lines` — the semantics of Rust's
  `str::lines()` iterator (split at `'\n'`, strip a `'\r'` that immediately
  precedes the `'\n'`, the final unterminated chunk is produced as-is and an
  empty final chunk is dropped);
* `strContains` — Rust's `str::contains` (literal substring containment);
* `to_lowercase` — character-wise lowercasing, as used by the
  case-insensitive search path;
* `search` and `search_case_insensitive` — the two line filters from
  `src/lib.rs`;
* `Config.new` — argument parsing plus the `CASE_INSENSITIVE` environment
  probe, where the process environment is modelled as an `Option Str`
  (the value of the variable when it is set);
* `run` and `main` — the driver.  The file system is modelled as a partial
  map from filenames to contents; a failing read makes `run` panic (the
  `expect` call), which is modelled by the outer `Except` layer of `run`'s
  result.  The inner `Except Str Unit` is the `Result` value `run` returns
  to `main` at the Rust level; `main`'s handling of it (the
  "Application error: " branch) is embedded faithfully.
-/

abbrev Str := List Char

/-- Split at every `'\n'`, keeping all chunks (so a string with `n`
newlines yields `n + 1` chunks, possibly empty). -/
def splitNl : Str → List Str
  | [] => [[]]
  | c :: rest =>
    if c = '\n' then [] :: splitNl rest
    else
      match splitNl rest with
      | [] => [[c]]
      | h :: t => (c :: h) :: t

/-- Drop a single trailing `'\r'`, if present. -/
def stripCR (l : Str) : Str := if l.getLast? = some '\r' then l.dropLast else l

/-- Post-process the chunks of `splitNl`: every chunk except the last was
terminated by a `'\n'` and has a trailing `'\r'` stripped; the last chunk is
unterminated, kept verbatim when nonempty and dropped when empty. -/
def finishLines : List Str → List Str
  | [] => []
  | chunk :: rest =>
    match rest with
    | [] => if chunk = [] then [] else [chunk]
    | _ :: _ => stripCR chunk :: finishLines rest

/-- Rust's `contents.lines()` collected to a list. -/
def lines (contents : Str) : List Str := finishLines (splitNl contents)

/-- Rust's `line.contains(query)`: literal substring containment. -/
def strContains (line query : Str) : Bool := decide (query <:+: line)

/-- Rust's `s.to_lowercase()`, modelled as character-wise lowercasing. -/
def to_lowercase (s : Str) : Str := s.map Char.toLower

/-- `search` from `src/lib.rs`: keep, in order, the lines of `contents`
that contain `query` verbatim. -/
def search (query contents : Str) : List Str :=
  (lines contents).filter (fun line => strContains line query)

/-- `search_case_insensitive` from `src/lib.rs`: lowercase the query once,
then keep the lines whose lowercasing contains it. -/
def search_case_insensitive (query contents : Str) : List Str :=
  let query := to_lowercase query
  (lines contents).filter (fun line => strContains (to_lowercase line) query)

/-- The execution configuration (`Config` in `src/lib.rs`). -/
structure Config where
  query : Str
  filename : Str
  case_sensitive : Bool
deriving DecidableEq

/-- `Config::new`: fewer than 3 arguments is an error; otherwise take
`args[1]` as query, `args[2]` as filename, and set `case_sensitive` from
the absence of the `CASE_INSENSITIVE` environment variable
(`env::var("CASE_INSENSITIVE").is_err()`), where `env` models the
variable's value when present. -/
def Config.new (env : Option Str) (args : List Str) : Except Str Config :=
  if h : args.length < 3 then
    .error "Some arguments appear to be missing".data
  else
    .ok { query := args.get ⟨1, by omega⟩,
          filename := args.get ⟨2, by omega⟩,
          case_sensitive := env.isNone }

/-- The panic message of the `expect` on the file read in `run`. -/
def expectMsg : Str := "Something went wrong reading the file".data

/-- The file system: a partial map from filenames to file contents. -/
abbrev FileSystem := Str → Option Str

/-- `run` from `src/lib.rs`.  The outer `Except` is the `expect` panic on a
failed read; the inner pair is the list of lines `run` prints together with
the `Result` value it returns (which is always `Ok(())`). -/
def run (fs : FileSystem) (config : Config) : Except Str (List Str × Except Str Unit) :=
  match fs config.filename with
  | none => .error expectMsg
  | some contents =>
    let results :=
      if config.case_sensitive then search config.query contents
      else search_case_insensitive config.query contents
    .ok (results, .ok ())

/-- Observable outcome of a process run: a normal exit with an exit code,
the lines printed to standard output and to standard error, or an abnormal
termination by panic. -/
inductive Outcome where
  | exited (code : Nat) (stdout stderrLines : List Str)
  | panicked (msg : Str)
deriving DecidableEq

/-- `main` from `src/main.rs`: build the config (exiting 1 with a
"Problem parsing arguments: " diagnostic on failure), print the two banner
lines, call `run`, and on an `Err` from `run` exit 1 with an
"Application error: " diagnostic. -/
def mainFn (env : Option Str) (fs : FileSystem) (args : List Str) : Outcome :=
  match Config.new env args with
  | .error err => .exited 1 [] ["Problem parsing arguments: ".data ++ err]
  | .ok config =>
    let banner := ["Searching for ".data ++ config.query,
                   "In file ".data ++ config.filename]
    match run fs config with
    | .error pmsg => .panicked pmsg
    | .ok (results, runResult) =>
      match runResult with
      | .error e => .exited 1 (banner ++ results) ["Application error: ".data ++ e]
      | .ok _ => .exited 0 (banner ++ results) []

/-! ### Helper lemmas -/

lemma toNat_ofNat_valid (n : Nat) (h : n.isValidChar) : (Char.ofNat n).toNat = n := by
  simp only [Char.ofNat, dif_pos h]
  simp [Char.ofNatAux, Char.toNat, UInt32.toNat, BitVec.toNat_ofNatLt]

lemma toLower_eq_low {c d : Char} (hd : d.toNat < 65) : Char.toLower c = d ↔ c = d := by
  show (let n := c.toNat; if n ≥ 65 ∧ n ≤ 90 then Char.ofNat (n + 32) else c) = d ↔ c = d
  simp only []
  split
  next h =>
    constructor
    · intro hc
      exfalso
      have h1 : (Char.ofNat (c.toNat + 32)).toNat = d.toNat := congrArg Char.toNat hc
      have hv : (c.toNat + 32).isValidChar := Or.inl (by omega)
      rw [toNat_ofNat_valid _ hv] at h1
      omega
    · intro hc
      exfalso
      have h2 : c.toNat = d.toNat := congrArg Char.toNat hc
      omega
  next h => exact Iff.rfl

lemma toLower_nl (c : Char) : Char.toLower c = '\n' ↔ c = '\n' :=
  toLower_eq_low (by decide)

lemma toLower_cr (c : Char) : Char.toLower c = '\r' ↔ c = '\r' :=
  toLower_eq_low (by decide)

lemma to_lowercase_nil : to_lowercase [] = [] := rfl

lemma to_lowercase_cons (c : Char) (s : Str) :
    to_lowercase (c :: s) = Char.toLower c :: to_lowercase s := rfl

lemma to_lowercase_eq_nil_iff (s : Str) : to_lowercase s = [] ↔ s = [] := by
  simp [to_lowercase]

lemma splitNl_ne_nil (s : Str) : splitNl s ≠ [] := by
  induction s with
  | nil => simp [splitNl]
  | cons c rest ih =>
    simp only [splitNl]
    split
    · simp
    · split
      · simp
      · simp

lemma splitNl_map_toLower (s : Str) :
    splitNl (to_lowercase s) = (splitNl s).map to_lowercase := by
  induction s with
  | nil => rfl
  | cons c rest ih =>
    rcases hr : splitNl rest with _ | ⟨h, t⟩
    · exact absurd hr (splitNl_ne_nil rest)
    · rw [to_lowercase_cons]
      by_cases hc : c = '\n'
      · subst hc
        rw [show Char.toLower '\n' = '\n' from by decide]
        simp [splitNl, ih, to_lowercase_nil]
      · have hc2 : ¬ Char.toLower c = '\n' := fun hx => hc ((toLower_nl c).mp hx)
        simp only [splitNl, if_neg hc, if_neg hc2, ih, hr, List.map_cons,
          to_lowercase_cons]

lemma stripCR_map_toLower (l : Str) :
    stripCR (to_lowercase l) = to_lowercase (stripCR l) := by
  have hlast : (to_lowercase l).getLast? = l.getLast?.map Char.toLower :=
    List.getLast?_map Char.toLower l
  by_cases h : l.getLast? = some '\r'
  · have h2 : (to_lowercase l).getLast? = some '\r' := by
      rw [hlast, h]
      simp [show Char.toLower '\r' = '\r' from by decide]
    simp only [stripCR, if_pos h, if_pos h2]
    exact (List.map_dropLast Char.toLower l).symm
  · have h2 : ¬ (to_lowercase l).getLast? = some '\r' := by
      rw [hlast]
      intro hx
      cases hl : l.getLast? with
      | none => rw [hl] at hx; simp at hx
      | some c =>
        rw [hl] at hx
        simp only [Option.map_some'] at hx
        have hc : c = '\r' := (toLower_cr c).mp (Option.some.inj hx)
        exact h (by rw [hl, hc])
    simp only [stripCR, if_neg h, if_neg h2]

lemma finishLines_map_toLower (L : List Str) :
    finishLines (L.map to_lowercase) = (finishLines L).map to_lowercase := by
  induction L with
  | nil => rfl
  | cons chunk rest ih =>
    cases rest with
    | nil =>
      simp only [List.map_cons, List.map_nil, finishLines]
      by_cases h : chunk = []
      · subst h
        simp [to_lowercase_nil]
      · rw [if_neg h, if_neg (fun hx => h ((to_lowercase_eq_nil_iff chunk).mp hx))]
        simp
    | cons c2 r2 =>
      have he : ∀ (a b : Str) (L : List Str),
          finishLines (a :: b :: L) = stripCR a :: finishLines (b :: L) :=
        fun a b L => rfl
      rw [List.map_cons, List.map_cons, he, he, stripCR_map_toLower, List.map_cons]
      congr 1

lemma lines_map_toLower (c : Str) :
    lines (to_lowercase c) = (lines c).map to_lowercase := by
  simp only [lines, splitNl_map_toLower, finishLines_map_toLower]

lemma splitNl_append_nl (s t : Str) (hs : '\n' ∉ s) :
    splitNl (s ++ '\n' :: t) = s :: splitNl t := by
  induction s with
  | nil => simp [splitNl]
  | cons c s2 ih =>
    have hc : c ≠ '\n' := fun hx => hs (hx ▸ List.mem_cons_self c s2)
    have hs2 : '\n' ∉ s2 := fun hx => hs (List.mem_cons_of_mem c hx)
    simp only [List.cons_append, splitNl, List.append_eq, if_neg hc, ih hs2]

lemma splitNl_no_nl (s : Str) (hs : '\n' ∉ s) : splitNl s = [s] := by
  induction s with
  | nil => rfl
  | cons c s2 ih =>
    have hc : c ≠ '\n' := fun hx => hs (hx ▸ List.mem_cons_self c s2)
    have hs2 : '\n' ∉ s2 := fun hx => hs (List.mem_cons_of_mem c hx)
    simp only [splitNl, if_neg hc, ih hs2]

lemma lines_append_nl (s t : Str) (hs : '\n' ∉ s) :
    lines (s ++ '\n' :: t) = stripCR s :: lines t := by
  rw [lines, splitNl_append_nl s t hs, lines]
  rcases ht : splitNl t with _ | ⟨h, t2⟩
  · exact absurd ht (splitNl_ne_nil t)
  · simp [finishLines]

lemma lines_no_nl (s : Str) (hs : '\n' ∉ s) (hne : s ≠ []) : lines s = [s] := by
  rw [lines, splitNl_no_nl s hs]
  simp [finishLines, hne]

lemma stripCR_concat_cr (s : Str) : stripCR (s ++ ['\r']) = s := by
  simp [stripCR, List.getLast?_concat, List.dropLast_concat]

lemma stripCR_of_no_cr (l : Str) (h : l.getLast? ≠ some '\r') : stripCR l = l := by
  simp [stripCR, h]

/-! ### Claim theorems -/

/-- C1: `search` returns exactly those lines of `contents` that contain
`query` as a verbatim substring, in original order: it equals the filter of
`lines contents` by literal containment, it is a sublist (order-preserving
subsequence: no insertions, no reordering, no foreign lines) of
`lines contents`, and membership is characterised by the verbatim-substring
property. -/
theorem search_returns_exactly_matching_lines (q c : Str) :
    search q c = (lines c).filter (fun line => strContains line q) ∧
    (search q c).Sublist (lines c) ∧
    ∀ l : Str, l ∈ search q c ↔ l ∈ lines c ∧ ∃ u v : Str, u ++ q ++ v = l := by
  refine ⟨rfl, List.filter_sublist _, fun l => ?_⟩
  simp only [search, List.mem_filter, strContains, decide_eq_true_iff]
  exact Iff.rfl

theorem search_returns_exactly_matching_lines_witness :
    (search "st".data "Test\nrust\nnope".data).Sublist (lines "Test\nrust\nnope".data) :=
  (search_returns_exactly_matching_lines "st".data "Test\nrust\nnope".data).2.1

/-- C2: case-insensitive search is case-sensitive search on lowercased
inputs — `search` on the lowercased query and contents returns precisely
the lowercasings, position by position, of the lines that
`search_case_insensitive` returns, and the latter returns the original
(non-lowercased) lines of `contents`, selected by lowercased containment. -/
theorem search_case_insensitive_equiv_lowered (q c : Str) :
    search (to_lowercase q) (to_lowercase c)
      = (search_case_insensitive q c).map to_lowercase ∧
    search_case_insensitive q c
      = (lines c).filter
          (fun line => strContains (to_lowercase line) (to_lowercase q)) := by
  refine ⟨?_, rfl⟩
  show (lines (to_lowercase c)).filter (fun line => strContains line (to_lowercase q))
      = ((lines c).filter
          (fun line => strContains (to_lowercase line) (to_lowercase q))).map to_lowercase
  rw [lines_map_toLower, List.filter_map]
  rfl

theorem search_case_insensitive_equiv_lowered_witness :
    search (to_lowercase "A".data) (to_lowercase "ab\nAB\nxy".data)
      = (search_case_insensitive "A".data "ab\nAB\nxy".data).map to_lowercase :=
  (search_case_insensitive_equiv_lowered "A".data "ab\nAB\nxy".data).1

/-- C3 (counterexample): with a file system on which every read fails, a
well-formed invocation does not exit with code 1 (so in particular prints
no "Application error: " diagnostic); it terminates abnormally — the
`expect` in `run` panics with "Something went wrong reading the file". -/
theorem read_failure_no_exit_counterexample :
    mainFn none (fun _ => none) ["prog".data, "q".data, "f".data]
      = .panicked expectMsg ∧
    ∀ so se : List Str,
      mainFn none (fun _ => none) ["prog".data, "q".data, "f".data]
        ≠ .exited 1 so se := by
  have h0 : mainFn none (fun _ => none) ["prog".data, "q".data, "f".data]
      = .panicked expectMsg := rfl
  exact ⟨h0, fun so se h => Outcome.noConfusion (h0.symm.trans h)⟩

/-- C3 (amended): whenever reading the configured file fails, the process
terminates abnormally with the panic message "Something went wrong reading
the file" (the `expect` in `run`); the "Application error: " exit-1 branch
of `main` is unreachable, because whenever `run` returns at all, the
`Result` value it hands back is `Ok(())`. -/
theorem read_failure_panics (env : Option Str) (fs : FileSystem)
    (args : List Str) (config : Config)
    (hc : Config.new env args = .ok config) (hf : fs config.filename = none) :
    mainFn env fs args = .panicked expectMsg ∧
    ∀ (g : FileSystem) (c2 : Config) r, run g c2 = .ok r → r.2 = .ok () := by
  constructor
  · simp only [mainFn, hc, run, hf]
  · intro g c2 r hr
    unfold run at hr
    cases hg : g c2.filename with
    | none => rw [hg] at hr; exact Except.noConfusion hr
    | some contents =>
      rw [hg] at hr
      injection hr with h2
      rw [← h2]

theorem read_failure_panics_witness :
    mainFn none (fun _ => none) ["prog".data, "q".data, "nofile".data]
      = .panicked expectMsg :=
  (read_failure_panics none (fun _ => none)
    ["prog".data, "q".data, "nofile".data]
    { query := "q".data, filename := "nofile".data, case_sensitive := true }
    rfl rfl).1

/-- C4: `Config.new` fails (with a human-readable message) iff `args` has
fewer than 3 elements; with at least 3 elements it succeeds, with `query`
taken from `args[1]` and `filename` from `args[2]`. -/
theorem config_new_arity (env : Option Str) (args : List Str) :
    ((∃ e, Config.new env args = .error e) ↔ args.length < 3) ∧
    (∀ h : 3 ≤ args.length,
      Config.new env args
        = .ok { query := args.get ⟨1, by omega⟩,
                filename := args.get ⟨2, by omega⟩,
                case_sensitive := env.isNone }) := by
  constructor
  · constructor
    · rintro ⟨e, he⟩
      by_contra hlen
      unfold Config.new at he
      rw [dif_neg hlen] at he
      exact Except.noConfusion he
    · intro hlen
      exact ⟨_, by unfold Config.new; rw [dif_pos hlen]⟩
  · intro h
    unfold Config.new
    rw [dif_neg (by omega)]

theorem config_new_arity_witness :
    (Config.new none ["prog".data, "hello".data, "file.txt".data]
      = .ok { query := "hello".data, filename := "file.txt".data,
              case_sensitive := true }) ∧
    ((∃ e, Config.new none ["prog".data, "onlyquery".data] = .error e)
      ↔ ([ "prog".data, "onlyquery".data ] : List Str).length < 3) :=
  ⟨(config_new_arity none ["prog".data, "hello".data, "file.txt".data]).2
      (by decide),
   (config_new_arity none ["prog".data, "onlyquery".data]).1⟩

/-- C5: `case_sensitive` is `true` exactly when the `CASE_INSENSITIVE`
variable is absent, and `false` whenever it is present with any value
(including the empty one); the value itself is never inspected —
`Config.new` gives the same result for any two present values. -/
theorem case_sensitive_iff_env_absent (args : List Str) :
    (∀ config : Config,
       Config.new none args = .ok config → config.case_sensitive = true) ∧
    (∀ (v : Str) (config : Config),
       Config.new (some v) args = .ok config → config.case_sensitive = false) ∧
    (∀ v w : Str, Config.new (some v) args = Config.new (some w) args) := by
  have key : ∀ (env : Option Str) (config : Config),
      Config.new env args = .ok config → config.case_sensitive = env.isNone := by
    intro env config h
    unfold Config.new at h
    split at h
    · exact Except.noConfusion h
    · injection h with h2
      rw [← h2]
  exact ⟨fun c h => key none c h, fun v c h => key (some v) c h, fun v w => rfl⟩

theorem case_sensitive_iff_env_absent_witness :
    ({ query := "q".data, filename := "f".data, case_sensitive := false }
      : Config).case_sensitive = false :=
  (case_sensitive_iff_env_absent ["prog".data, "q".data, "f".data]).2.1 []
    { query := "q".data, filename := "f".data, case_sensitive := false } rfl

/-- C6: both search functions split `contents` at `'\n'` separators with a
`'\r'` immediately preceding the `'\n'` stripped and a final unterminated
line still produced: `lines` obeys the splitting equations, `stripCR`
strips exactly one trailing `'\r'` and nothing else, and both searches are
filters of `lines contents`. -/
theorem lines_splitting (q s t : Str) :
    ('\n' ∉ s → lines (s ++ '\n' :: t) = stripCR s :: lines t) ∧
    ('\n' ∉ s → s ≠ [] → lines s = [s]) ∧
    stripCR (s ++ ['\r']) = s ∧
    (s.getLast? ≠ some '\r' → stripCR s = s) ∧
    search q t = (lines t).filter (fun line => strContains line q) ∧
    search_case_insensitive q t
      = (lines t).filter
          (fun line => strContains (to_lowercase line) (to_lowercase q)) :=
  ⟨lines_append_nl s t, fun h1 h2 => lines_no_nl s h1 h2, stripCR_concat_cr s,
   stripCR_of_no_cr s, rfl, rfl⟩

theorem lines_splitting_witness :
    lines ("ab\r".data ++ '\n' :: "c".data) = stripCR "ab\r".data :: lines "c".data :=
  (lines_splitting "q".data "ab\r".data "c".data).1 (by decide)

/-- C7: boundary behaviour of `search` — the empty query matches every
line, a query strictly longer than every line matches no line, and empty
contents give an empty result for every query. -/
theorem search_boundary (q c : Str) :
    search [] c = lines c ∧
    search q [] = [] ∧
    ((∀ l ∈ lines c, l.length < q.length) → search q c = []) := by
  refine ⟨?_, rfl, ?_⟩
  · apply List.filter_eq_self.mpr
    intro a ha
    exact decide_eq_true List.nil_infix
  · intro hlong
    apply List.filter_eq_nil_iff.mpr
    intro a ha hcontains
    have hinf : q <:+: a := of_decide_eq_true hcontains
    have hle := hinf.length_le
    have hlt := hlong a ha
    omega

theorem search_boundary_witness : search "abcdef".data "ab\ncd".data = [] :=
  (search_boundary "abcdef".data "ab\ncd".data).2.2 (by decide)

/-- C8: the search functions are deterministic pure functions — identical
inputs give identical results — and `run` has no hidden input: its result
depends only on the configuration and the one file the file system maps
the configured filename to. -/
theorem search_deterministic (q q2 c c2 : Str) (fs fs2 : FileSystem)
    (config : Config) :
    (q = q2 → c = c2 →
      search q c = search q2 c2 ∧
      search_case_insensitive q c = search_case_insensitive q2 c2) ∧
    (fs config.filename = fs2 config.filename → run fs config = run fs2 config) := by
  constructor
  · rintro rfl rfl
    exact ⟨rfl, rfl⟩
  · intro hfs
    unfold run
    rw [hfs]

theorem search_deterministic_witness :
    run (fun n => if n = "f".data then some "a\nb".data else none)
        { query := "a".data, filename := "f".data, case_sensitive := true }
      = run (fun _ => some "a\nb".data)
        { query := "a".data, filename := "f".data, case_sensitive := true } :=
  (search_deterministic [] [] [] []
    (fun n => if n = "f".data then some "a\nb".data else none)
    (fun _ => some "a\nb".data)
    { query := "a".data, filename := "f".data, case_sensitive := true }).2
    (by decide)

/-- C9: `Config.new` accepts argument lists with more than 3 elements: it
still succeeds, and the extra elements have no effect on the resulting
configuration. -/
theorem config_new_extra_args (env : Option Str) (a0 a1 a2 : Str)
    (rest : List Str) :
    Config.new env (a0 :: a1 :: a2 :: rest)
      = .ok { query := a1, filename := a2, case_sensitive := env.isNone } ∧
    Config.new env (a0 :: a1 :: a2 :: rest) = Config.new env [a0, a1, a2] := by
  have h1 : Config.new env (a0 :: a1 :: a2 :: rest)
      = .ok { query := a1, filename := a2, case_sensitive := env.isNone } := by
    unfold Config.new
    rw [dif_neg (by simp only [List.length_cons]; omega)]
    rfl
  exact ⟨h1, by rw [h1]; rfl⟩

theorem config_new_extra_args_witness :
    Config.new none ["prog".data, "q".data, "f".data, "extra".data, "more".data]
      = .ok { query := "q".data, filename := "f".data, case_sensitive := true } :=
  (config_new_extra_args none "prog".data "q".data "f".data
    ["extra".data, "more".data]).1

/-- C10: `search` and `search_case_insensitive` are total — for every
query and contents (embedded carriage returns, non-ASCII text, and
newline-containing queries included) they return a well-formed result, a
subsequence of `lines contents`; the embedding has no panic or error
branch, so no input can reach one. -/
theorem search_total (q c : Str) :
    (∃ r : List Str, search q c = r ∧ r.Sublist (lines c)) ∧
    (∃ r : List Str, search_case_insensitive q c = r ∧ r.Sublist (lines c)) :=
  ⟨⟨search q c, rfl, List.filter_sublist _⟩,
   ⟨search_case_insensitive q c, rfl, List.filter_sublist _⟩⟩

theorem search_total_witness :
    ∃ r : List Str,
      search "a\nb".data "héllo\r\nx\rY".data = r
        ∧ r.Sublist (lines "héllo\r\nx\rY".data) :=
  (search_total "a\nb".data "héllo\r\nx\rY".data).1
